import Mathlib

deriving instance DecidableEq for Except

/-!
Verification of the base-chat embedding server core against its specification:
the text chunker (app/utils/chunking.py), the pgvector-backed vector store
(app/services/vector_store_service.py) and the batch orchestrator
(app/services/batch_service.py, app/tasks/batch_tasks.py), modelled as a
shallow embedding over lists and pure state.
-/

namespace Chunking

/-- The whitespace characters of str.strip (ASCII range): space, tab,
newline, carriage return, vertical tab, form feed. -/
def isWS (c : Char) : Bool :=
  c = ' ' || c = '\t' || c = '\n' || c = '\r' || c = Char.ofNat 11 || c = Char.ofNat 12

/-- str.strip(): drop whitespace from both ends. -/
def stripChars (l : List Char) : List Char :=
  ((l.dropWhile isWS).reverse.dropWhile isWS).reverse

/-- text.replace("\r\n", "\n").replace("\r", "\n") in split_into_paragraphs:
a left-to-right scan replacing the pair and then lone carriage returns. -/
def normalizeNewlines : List Char → List Char
  | [] => []
  | [c] => if c = '\r' then ['\n'] else [c]
  | c1 :: c2 :: t =>
    if c1 = '\r' && c2 = '\n' then '\n' :: normalizeNewlines t
    else if c1 = '\r' then '\n' :: normalizeNewlines (c2 :: t)
    else c1 :: normalizeNewlines (c2 :: t)

/-- normalized.split("\n"): Python str.split on a single-character separator,
so the empty string yields one empty piece. -/
def splitNl : List Char → List (List Char)
  | [] => [[]]
  | '\n' :: t => [] :: splitNl t
  | c :: t =>
    match splitNl t with
    | [] => [[c]]
    | p :: ps => (c :: p) :: ps

/-- "\n".join(pieces). -/
def joinNl (ls : List (List Char)) : List Char := List.intercalate ['\n'] ls

/-- The line loop of split_into_paragraphs: blank lines flush the buffer as a
stripped paragraph, non-blank lines accumulate. -/
def paraAux : List (List Char) → List (List Char) → List (List Char)
  | [], buffer => if buffer = [] then [] else [stripChars (joinNl buffer)]
  | line :: rest, buffer =>
    if stripChars line = [] then
      if buffer = [] then paraAux rest [] else stripChars (joinNl buffer) :: paraAux rest []
    else paraAux rest (buffer ++ [line])

/-- split_into_paragraphs: normalize newlines, split into lines, group runs of
non-blank lines into stripped paragraphs, drop empty paragraphs. -/
def split_into_paragraphs (text : List Char) : List (List Char) :=
  (paraAux (splitNl (normalizeNewlines text)) []).filter (fun p => decide (p ≠ []))

/-- The while loop of split_hard, with fuel bounded by the remaining length. -/
def splitHardGo (maxChars : Nat) : Nat → List Char → List (List Char)
  | 0, _ => []
  | _ + 1, [] => []
  | fuel + 1, l => l.take maxChars :: splitHardGo maxChars fuel (l.drop maxChars)

/-- split_hard: slice a paragraph into pieces of at most maxChars characters. -/
def split_hard (maxChars : Nat) (p : List Char) : List (List Char) :=
  splitHardGo maxChars p.length p

/-- tail_overlap: previous_chunk[-overlap_chars:] when overlap_chars is
positive and the chunk is non-empty, else the empty string. -/
def tail_overlap (overlap : Nat) (prev : List Char) : List Char :=
  if overlap = 0 ∨ prev = [] then [] else prev.drop (prev.length - overlap)

/-- The mutable loop state of chunk_text: closed chunks, the pieces of the
chunk under construction, and the running length counter. -/
structure ChunkState where
  chunks : List (List Char)
  current : List (List Char)
  currentLen : Nat
deriving Repr, DecidableEq

/-- Close the current chunk and seed the next one with its overlap tail:
chunks.append("\n".join(current)); current = [tail_overlap(chunks[-1])]. -/
def closeAndSeed (overlap : Nat) (st : ChunkState) : ChunkState :=
  let closed := joinNl st.current
  let t := tail_overlap overlap closed
  ⟨st.chunks ++ [closed], [t], t.length⟩

/-- One piece step of the chunk_text loop, shared by the paragraph branch and
the hard-split branch: close the chunk when the piece would not fit and the
current chunk is non-empty, then append the piece. -/
def addPiece (maxChars overlap : Nat) (st : ChunkState) (piece : List Char) : ChunkState :=
  let st1 :=
    if st.currentLen + piece.length + 1 > maxChars ∧ st.current ≠ [] then
      closeAndSeed overlap st
    else st
  ⟨st1.chunks, st1.current ++ [piece], st1.currentLen + piece.length + 1⟩

/-- One paragraph of the chunk_text loop: oversized paragraphs are hard-split
into maxChars slices first, each slice packed by addPiece. -/
def addParagraph (maxChars overlap : Nat) (st : ChunkState) (para : List Char) : ChunkState :=
  if para.length > maxChars then (split_hard maxChars para).foldl (addPiece maxChars overlap) st
  else addPiece maxChars overlap st para

/-- The body of chunk_text after splitting into paragraphs: run the packing
loop, flush the final chunk, and strip every chunk. -/
def chunkCore (maxChars overlap : Nat) (paras : List (List Char)) : List (List Char) :=
  let st := paras.foldl (addParagraph maxChars overlap) ⟨[], [], 0⟩
  let allChunks := if st.current = [] then st.chunks else st.chunks ++ [joinNl st.current]
  allChunks.map stripChars

/-- chunk_text on character lists: empty input yields one empty chunk. -/
def chunk_textL (maxChars overlap : Nat) (text : List Char) : List (List Char) :=
  if text = [] then [[]] else chunkCore maxChars overlap (split_into_paragraphs text)

/-- TextChunker.chunk_text. -/
def chunk_text (maxChars overlap : Nat) (s : String) : List String :=
  (chunk_textL maxChars overlap s.data).map String.mk

end Chunking

namespace VectorStore

/-- One row of an embedding table: (document_id unique, content, embedding,
metadata jsonb, created_at, updated_at). Timestamps are a logical clock for
NOW(); metadata models a flat JSON object of string values, none for NULL. -/
structure Row where
  document_id : String
  content : String
  embedding : List Rat
  metadata : Option (List (String × String))
  created_at : Nat
  updated_at : Nat
deriving Repr, DecidableEq

/-- The relational database: information_schema.tables plus the rows of each
table by name. -/
structure Database where
  tables : List String
  rows : String → List Row

/-- The VectorStoreService instance state: only the current_table attribute
that switch_table assigns (absent until the first switch). -/
structure ServiceState where
  current_table : Option String
deriving Repr, DecidableEq

/-- _validate_table_name, first half: re.match of the anchored identifier
pattern under Python semantics, where a final dollar anchor also matches just
before one trailing newline. strictIdentMatch below is the mathematical
reading of the same pattern. -/
def strictIdentMatch (s : String) : Bool :=
  match s.data with
  | [] => false
  | c :: cs => (c.isAlpha || c = '_') && cs.all (fun d => d.isAlphanum || d = '_')

/-- Python re.match with the anchored identifier pattern: a strict match, or a
strict match followed by a single trailing newline. -/
def pyIdentMatch (s : String) : Bool :=
  strictIdentMatch s ||
    (match s.data.getLast? with
     | some '\n' => strictIdentMatch (String.mk s.data.dropLast)
     | _ => false)

/-- The reserved-word blocklist of _validate_table_name. -/
def reservedWords : List String :=
  ["select", "insert", "update", "delete", "drop", "create", "alter",
   "table", "index", "view", "schema", "database", "user", "admin",
   "root", "system", "information_schema", "pg_"]

/-- str.lower, character by character (the names reaching the reserved-word
check are ASCII identifiers). -/
def lowerStr (s : String) : String := String.mk (s.data.map Char.toLower)

/-- _validate_table_name: the pattern must match and the lowercased name must
not be a reserved word. -/
def validate_table_name (name : String) : Bool :=
  pyIdentMatch name && !(reservedWords.contains (lowerStr name))

/-- The result payload of switch_table. -/
structure SwitchResult where
  previous_table : String
  current_table : String
deriving Repr, DecidableEq

/-- switch_table: validate the name, require the table to exist, then assign
self.current_table (previous value defaults to "embeddings"). -/
def switch_table (db : Database) (svc : ServiceState) (name : String) :
    Except String (ServiceState × SwitchResult) :=
  if !validate_table_name name then .error ("Invalid table name: " ++ name)
  else if !db.tables.contains name then
    .error ("Table " ++ name ++ " does not exist")
  else .ok (⟨some name⟩, ⟨svc.current_table.getD "embeddings", name⟩)

/-- The DO UPDATE SET of the upsert: on the conflicting document_id replace
content, embedding and metadata and set updated_at = NOW(), keeping
created_at. -/
def updateRow (d c : String) (e : List Rat) (m : Option (List (String × String)))
    (now : Nat) (r : Row) : Row :=
  if r.document_id = d then
    { r with content := c, embedding := e, metadata := m, updated_at := now }
  else r

/-- The upsert applied to the row list: the DO UPDATE branch rewrites the
conflicting row, the plain INSERT appends a fresh row. -/
def upsertRow (rows : List Row) (d c : String) (e : List Rat)
    (m : Option (List (String × String))) (now : Nat) : List Row :=
  if rows.any (fun r => r.document_id = d) then rows.map (updateRow d c e m now)
  else rows ++ [⟨d, c, e, m, now, now⟩]

/-- store_embedding: the INSERT targets the table named embeddings in its SQL
text, regardless of the service state passed in. -/
def store_embedding (db : Database) (_svc : ServiceState) (document_id content : String)
    (embedding : List Rat) (metadata : Option (List (String × String))) (now : Nat) :
    Database :=
  { db with
    rows := fun t =>
      if t = "embeddings" then upsertRow (db.rows t) document_id content embedding metadata now
      else db.rows t }

/-- metadata->>key: the text of a top-level key of the metadata object, NULL
when the object is NULL or the key absent. -/
def metaGet (m : Option (List (String × String))) (k : String) : Option String :=
  m.bind (fun kvs => (kvs.find? (fun kv => decide (kv.1 = k))).map (fun kv => kv.2))

/-- The conjunction of equality predicates that search_similar appends to its
WHERE clause: metadata->>key = value for every filter entry. -/
def filtersMatch (filters : List (String × String)) (r : Row) : Bool :=
  filters.all (fun kv => decide (metaGet r.metadata kv.1 = some kv.2))

/-- One row of the result list of search_similar. -/
structure SearchResult where
  document_id : String
  content : String
  metadata : Option (List (String × String))
  similarity_score : Rat
deriving Repr, DecidableEq

/-- search_similar: similarity = 1 - cosine distance, keep rows above the
threshold that satisfy every filter, order by distance ascending, limit to
top_k. The cosine distance operator of the pgvector extension is the oracle
parameter dist. The FROM clause names the embeddings table. -/
def search_similar (dist : List Rat → List Rat → Rat) (db : Database) (_svc : ServiceState)
    (query : List Rat) (topK : Nat) (threshold : Rat) (filters : List (String × String)) :
    List SearchResult :=
  let rows := db.rows "embeddings"
  let kept := rows.filter (fun r => decide (1 - dist r.embedding query > threshold) && filtersMatch filters r)
  let ordered := kept.insertionSort (fun a b => dist a.embedding query ≤ dist b.embedding query)
  (ordered.take topK).map (fun r =>
    ⟨r.document_id, r.content, r.metadata, 1 - dist r.embedding query⟩)

/-- How create_embedding_table fails: the ValueError raises (the name fails
validation or the table already exists — the ValidationError of the spec),
or an error the PostgreSQL round trips raise, re-raised by the except
block. -/
inductive CreateErr where
  | validation (msg : String)
  | postgres (msg : String)
deriving Repr, DecidableEq

/-- The keywords PostgreSQL reserves against use as table or index names
(the fully reserved ones plus those reserved except as function or type
names): an unquoted identifier equal to one of these makes the interpolated
CREATE TABLE or CREATE INDEX a syntax error. -/
def pgReservedKeywords : List String :=
  ["all", "analyse", "analyze", "and", "any", "array", "as", "asc",
   "asymmetric", "authorization", "binary", "both", "case", "cast", "check",
   "collate", "collation", "column", "concurrently", "constraint", "create",
   "cross", "current_catalog", "current_date", "current_role",
   "current_schema", "current_time", "current_timestamp", "current_user",
   "default", "deferrable", "desc", "distinct", "do", "else", "end",
   "except", "false", "fetch", "for", "foreign", "freeze", "from", "full",
   "grant", "group", "having", "ilike", "in", "initially", "inner",
   "intersect", "into", "is", "isnull", "join", "lateral", "leading",
   "left", "like", "limit", "localtime", "localtimestamp", "natural",
   "not", "notnull", "null", "offset", "on", "only", "or", "order",
   "outer", "overlaps", "placing", "primary", "references", "returning",
   "right", "select", "session_user", "similar", "some", "symmetric",
   "table", "tablesample", "then", "to", "trailing", "true", "union",
   "unique", "user", "using", "variadic", "verbose", "when", "where",
   "window", "with"]

/-- Whether splicing the name into the CREATE TABLE and CREATE INDEX texts
yields the intended statements: the name must lex as exactly one ordinary
identifier token — for the names that reach the DDL (an identifier with an
optional trailing newline, everything else failed validation) that is
strictIdentMatch, since a trailing newline splits the concatenated index
name name_embedding_hnsw_idx into two tokens — and must not be a keyword
PostgreSQL reserves (keywords compare case-insensitively). -/
def ddlWellFormed (name : String) : Bool :=
  strictIdentMatch name && !(pgReservedKeywords.contains (lowerStr name))

/-- create_embedding_table: validate the name (ValueError when invalid),
fail with ValueError when a table of that name already exists, then run the
interpolated DDL: a name that does not splice into well-formed statements
raises a PostgreSQL syntax error, a name whose lowercase fold (unquoted
identifiers fold to lowercase in the catalog) collides with an existing
relation raises a duplicate-relation error, and otherwise the table, its
indexes and its registry row are created. A raising statement propagates
out of the except block; statements already executed are not rolled back
(there is no transaction), which the error cases do not track. -/
def create_embedding_table (db : Database) (name : String) (_description : Option String) :
    Except CreateErr Database :=
  if !validate_table_name name then .error (.validation ("Invalid table name: " ++ name))
  else if db.tables.contains name then
    .error (.validation ("Table " ++ name ++ " already exists"))
  else if !ddlWellFormed name then .error (.postgres "syntax error at or near")
  else if db.tables.contains (lowerStr name) then
    .error (.postgres ("relation " ++ lowerStr name ++ " already exists"))
  else .ok { db with tables := db.tables ++ [lowerStr name] }

/-- The call raised the ValueError the API surfaces as ValidationError. -/
def isValidationFailure : Except CreateErr Database → Bool
  | .error (.validation _) => true
  | _ => false

/-- The call raised a PostgreSQL error from the interpolated DDL. -/
def isPostgresFailure : Except CreateErr Database → Bool
  | .error (.postgres _) => true
  | _ => false

/-- The SQL text of cleanup_old_embeddings: the days_old argument is spliced
as $1 inside the quoted interval literal, so the statement has no parameter
placeholder. -/
def cleanupQuerySql : String :=
  "DELETE FROM embeddings WHERE created_at < NOW() - INTERVAL '$1 days'"

/-- Count the $n parameter placeholders of a SQL text that stand outside
single-quoted string literals, as the PostgreSQL parser reads them. -/
def countParamsAux : List Char → Bool → Nat
  | [], _ => 0
  | '\'' :: t, inQ => countParamsAux t (!inQ)
  | '$' :: c :: t, false => if c.isDigit then 1 + countParamsAux t false else countParamsAux (c :: t) false
  | _ :: t, inQ => countParamsAux t inQ

/-- The number of parameter placeholders of a SQL string. -/
def countParams (sql : String) : Nat := countParamsAux sql.data false

/-- The dict cleanup_old_embeddings returns: success with a deleted count, or
the caught error. -/
inductive CleanupResult where
  | ok (deleted_count : Nat)
  | err (msg : String)
deriving Repr, DecidableEq

/-- cleanup_old_embeddings: executing the DELETE with one argument against a
statement whose placeholder count differs raises (asyncpg checks the argument
count against the prepared statement), the except block turns that into a
failure dict, and no row is touched. Were the placeholder count right, the
delete would remove rows older than days_old days (86400 seconds each). -/
def cleanup_old_embeddings (rows : List Row) (days_old : Nat) (now : Nat) :
    CleanupResult × List Row :=
  if countParams cleanupQuerySql = 1 then
    let kept := rows.filter (fun r => decide (r.created_at + days_old * 86400 ≥ now))
    (.ok (rows.length - kept.length), kept)
  else
    (.err "the server expects 0 arguments for this query, 1 was passed", rows)

/-- One store_embedding call: its arguments and the NOW() timestamp of its
transaction. -/
structure StoreCall where
  document_id : String
  content : String
  embedding : List Rat
  metadata : Option (List (String × String))
  time : Nat
deriving Repr, DecidableEq

/-- A sequence of store_embedding calls against one service instance. -/
def applyStores (db : Database) (svc : ServiceState) (calls : List StoreCall) : Database :=
  calls.foldl
    (fun d c => store_embedding d svc c.document_id c.content c.embedding c.metadata c.time) db

/-- The same sequence of upserts at the level of one table's row list. -/
def applyUpserts (rows : List Row) (calls : List StoreCall) : List Row :=
  calls.foldl
    (fun rs c => upsertRow rs c.document_id c.content c.embedding c.metadata c.time) rows

/-- The last call of a sequence that targets document_id d. -/
def lastFor (d : String) : List StoreCall → Option StoreCall
  | [] => none
  | c :: cs =>
    match lastFor d cs with
    | some c2 => some c2
    | none => if c.document_id = d then some c else none

/-- The database right after initialize_database against an empty cluster:
the default embeddings table and the registry exist and are empty. -/
def dbInit : Database := ⟨["embeddings", "table_metadata"], fun _ => []⟩

/-- A database for the switch_table scenario: the default table is empty and
a second table docs holds one row. -/
def dbC1 : Database :=
  { tables := ["embeddings", "table_metadata", "docs"]
    rows := fun t => if t = "docs" then [⟨"k1", "hello", [1], none, 0, 0⟩] else [] }

/-- Two rows whose metadata differ only in the source key, for the search
filtering scenario. -/
def rowA : Row := ⟨"da", "ca", [1], some [("source", "a")], 0, 0⟩

/-- The source = b row of the search filtering scenario. -/
def rowB : Row := ⟨"db", "cb", [2], some [("source", "b")], 0, 0⟩

/-- A database whose embeddings table holds the source = a and source = b
rows. -/
def dbC4 : Database :=
  { tables := ["embeddings", "table_metadata"]
    rows := fun t => if t = "embeddings" then [rowA, rowB] else [] }

/-- Two stores of the same document_id with different content at strictly
increasing timestamps. -/
def callsC3 : List StoreCall :=
  [⟨"d1", "x", [1], none, 1⟩, ⟨"d1", "y", [2], some [("k", "v")], 2⟩]

end VectorStore

namespace Batch

/-- One input document of a batch job: doc.get("id"), doc.get("content", ""),
doc.get("metadata", {}). -/
structure BatchDoc where
  id : Option String
  content : String
  metadata : List (String × String)
deriving Repr, DecidableEq

/-- The loop counters of _process_documents_async, plus the number of
embedding-provider invocations the loop has made. -/
structure LoopState where
  processed : Nat
  failed : Nat
  errors : List String
  providerCalls : Nat
deriving Repr, DecidableEq

/-- One iteration of the document loop: empty content counts as failed and
skips the provider; otherwise the provider-and-store step runs (modelled by
the fallible oracle run, indexed by the loop position) and an exception
appends a formatted error string and counts as failed. -/
def processOne (run : Nat → BatchDoc → Except String Unit) (i : Nat) (doc : BatchDoc)
    (st : LoopState) : LoopState :=
  if doc.content = "" then { st with failed := st.failed + 1 }
  else
    match run i doc with
    | .ok _ => { st with processed := st.processed + 1, providerCalls := st.providerCalls + 1 }
    | .error e =>
      { st with
        failed := st.failed + 1
        providerCalls := st.providerCalls + 1
        errors := st.errors ++ ["Error processing document " ++ toString (i + 1) ++ ": " ++ e] }

/-- The document loop from position i. -/
def processFrom (run : Nat → BatchDoc → Except String Unit) :
    Nat → List BatchDoc → LoopState → LoopState
  | _, [], st => st
  | i, d :: ds, st => processFrom run (i + 1) ds (processOne run i d st)

/-- The terminal result dict of _process_documents_async. -/
structure BatchOutcome where
  status : String
  total_documents : Nat
  processed : Nat
  failed : Nat
  errors : List String
  providerCalls : Nat
deriving Repr, DecidableEq

/-- _process_documents_async: iterate the documents sequentially from index 0
and return the completed result with the final counters. -/
def process_documents_async (run : Nat → BatchDoc → Except String Unit)
    (docs : List BatchDoc) : BatchOutcome :=
  let st := processFrom run 0 docs ⟨0, 0, [], 0⟩
  ⟨"completed", docs.length, st.processed, st.failed, st.errors, st.providerCalls⟩

/-- A persisted job record: the flat field map of the Redis hash. -/
abbrev Record : Type := List (String × String)

/-- hset of one field: overwrite the field when present, else append it. -/
def setField (rec : Record) (k v : String) : Record :=
  if rec.any (fun kv => kv.1 = k) then
    rec.map (fun kv => if kv.1 = k then (k, v) else kv)
  else rec ++ [(k, v)]

/-- Read one field of a record. -/
def getField (rec : Record) (k : String) : Option String :=
  (rec.find? (fun kv => decide (kv.1 = k))).map (fun kv => kv.2)

/-- dict.update: write every field of the update into the record. -/
def updateFields (rec : Record) (fields : List (String × String)) : Record :=
  fields.foldl (fun r kv => setField r kv.1 kv.2) rec

/-- The state the task queue reports for a task id: not yet terminal, a
queue-native success whose stored result is the worker result dict, or a
queue-native terminal failure whose stored result is the raised exception
(not a dict). -/
inductive CeleryResult where
  | pending
  | successDict (fields : List (String × String))
  | failure (errMsg : String)
deriving Repr, DecidableEq

/-- AsyncResult.status. -/
def celeryStatusStr : CeleryResult → String
  | .pending => "PENDING"
  | .successDict _ => "SUCCESS"
  | .failure _ => "FAILURE"

/-- AsyncResult.ready(): the task reached a terminal queue state. -/
def celeryReady : CeleryResult → Bool
  | .pending => false
  | .successDict _ => true
  | .failure _ => true

/-- The job store: the Redis hashes under batch_job keys, in key-enumeration
order, keyed by job id. -/
abbrev JobStore : Type := List (String × Record)

/-- get_job_status: read the persisted hash (an absent or empty hash raises
not-found), attach celery_status from the task queue, and merge the task
result into the record only when the task is ready and its result is a dict
(a terminal failure stores the raised exception, which is not a dict, so
nothing beyond celery_status is merged for it). -/
def get_job_status (store : JobStore) (celery : String → CeleryResult) (batchId : String) :
    Except String Record :=
  let rec0 := ((store.find? (fun kv => decide (kv.1 = batchId))).map (fun kv => kv.2)).getD []
  if rec0 = [] then .error ("Job " ++ batchId ++ " not found")
  else
    match getField rec0 "celery_task_id" with
    | none => .ok rec0
    | some tid =>
      let st := celeryStatusStr (celery tid)
      let rec1 := setField rec0 "celery_status" st
      if celeryReady (celery tid) then
        match celery tid with
        | .successDict fields => .ok (updateFields rec1 fields)
        | _ => .ok rec1
      else .ok rec1

/-- x.get("created_at", ""), the sort key of list_jobs. -/
def createdKey (rec : Record) : String := (getField rec "created_at").getD ""

/-- list_jobs: truncate the enumerated keys to the limit, resolve each through
get_job_status skipping failures, then sort by creation time descending
(a stable descending sort, as list.sort with reverse=True). -/
def list_jobs (store : JobStore) (celery : String → CeleryResult) (limit : Nat) :
    List Record :=
  let keys := (store.map (fun kv => kv.1)).take limit
  let jobs := keys.foldl
    (fun acc id =>
      match get_job_status store celery id with
      | .ok rec => acc ++ [rec]
      | .error _ => acc) []
  jobs.insertionSort (fun a b => createdKey b ≤ createdKey a)

/-- The persisted record of a job whose worker crashed before any terminal
write: status still pending, with the queue task handle attached. -/
def recC6pre : Record := [("id", "j1"), ("status", "pending"), ("celery_task_id", "t1")]

/-- A job store holding one record whose worker crashed: the persisted status
is still pending while the task queue reports a terminal failure. -/
def storeC6 : JobStore := [("j1", recC6pre)]

/-- The task queue of the crashed-worker scenario: every task id reports a
queue-native terminal failure. -/
def celeryC6 : String → CeleryResult := fun _ => .failure "boom"

/-- What get_job_status returns in the crashed-worker scenario. -/
def recC6 : Record :=
  [("id", "j1"), ("status", "pending"), ("celery_task_id", "t1"), ("celery_status", "FAILURE")]

/-- The older job record of the list_jobs scenario. -/
def recC7a : Record := [("id", "j1"), ("created_at", "2024-01-01")]

/-- The newer job record of the list_jobs scenario. -/
def recC7b : Record := [("id", "j2"), ("created_at", "2024-01-02")]

/-- A job store whose key enumeration yields the older job first. -/
def storeC7 : JobStore := [("j1", recC7a), ("j2", recC7b)]

/-- The task queue of the list_jobs scenario: nothing is terminal and no
record carries a task id, so records are returned as persisted. -/
def celeryC7 : String → CeleryResult := fun _ => .pending

/-- A batch of five documents of which exactly one has empty content. -/
def docsC5 : List BatchDoc :=
  [⟨some "a", "alpha", []⟩, ⟨some "b", "", []⟩, ⟨some "c", "gamma", []⟩,
   ⟨some "d", "delta", []⟩, ⟨some "e", "epsilon", []⟩]

/-- A provider-and-store oracle that always succeeds. -/
def runC5 : Nat → BatchDoc → Except String Unit := fun _ _ => .ok ()

end Batch

/-! ## Theorems -/

/-- C1: switch_table only reassigns the current_table attribute; the SQL of
store_embedding and search_similar names the embeddings table literally, so
after a successful switch to docs a store still writes to embeddings and a
search still reads embeddings — the switched table is never targeted. The
final conjunct shows the row sitting in docs would have cleared the search
threshold, so the search returning nothing can only come from reading the
wrong table. -/
theorem C1_switch_table_not_used_by_store_and_search :
    VectorStore.switch_table VectorStore.dbC1 ⟨none⟩ "docs" =
      .ok (⟨some "docs"⟩, ⟨"embeddings", "docs"⟩) ∧
    (VectorStore.store_embedding VectorStore.dbC1 ⟨some "docs"⟩ "d1" "x" [1] none 5).rows "docs" =
      VectorStore.dbC1.rows "docs" ∧
    (VectorStore.store_embedding VectorStore.dbC1 ⟨some "docs"⟩ "d1" "x" [1] none 5).rows
        "embeddings" = [⟨"d1", "x", [1], none, 5, 5⟩] ∧
    VectorStore.search_similar (fun _ _ => 0) VectorStore.dbC1 ⟨some "docs"⟩ [1] 10 (1 / 2) [] =
      [] ∧
    (1 - (0 : Rat) > 1 / 2) := by
  refine ⟨by decide, by decide, by decide, by decide, by norm_num⟩

/-- C2: the final per-chunk strip of chunk_text can remove the leading
whitespace of the seeded overlap tail: on "a\n\nb\n\nc" with max_chars = 4 and
overlap_chars = 2 the chunks come out as ["a\nb", "b\nc"], the last 2
characters of chunk 0 are "\nb", and chunk 1 does not start with them. -/
theorem C2_final_strip_breaks_overlap :
    Chunking.chunk_text 4 2 "a\n\nb\n\nc" = ["a\nb", "b\nc"] ∧
    Chunking.tail_overlap 2 "a\nb".data = ['\n', 'b'] ∧
    List.isPrefixOf ['\n', 'b'] "b\nc".data = false := by
  refine ⟨by decide, by decide, by decide⟩

/-- C9: the DELETE of cleanup_old_embeddings writes its $1 inside the quoted
interval literal, so the prepared statement has zero placeholders while one
argument is passed; every call therefore raises, is caught, returns the
failure dict and deletes nothing, for every table state and every days_old. -/
theorem C9_cleanup_interval_placeholder_bug :
    VectorStore.countParams VectorStore.cleanupQuerySql = 0 ∧
    ∀ (rows : List VectorStore.Row) (days_old now : Nat),
      VectorStore.cleanup_old_embeddings rows days_old now =
        (.err "the server expects 0 arguments for this query, 1 was passed", rows) := by
  have h : VectorStore.countParams VectorStore.cleanupQuerySql = 0 := by decide
  exact ⟨h, fun rows days_old now => by simp [VectorStore.cleanup_old_embeddings, h]⟩

/-- C6 counterexample: a job whose persisted record still says pending while
the task queue reports a terminal failure is returned by get_job_status with
status still pending (the failure result is an exception, not a dict, so the
merge never rewrites status); the claim that the returned record has status
failed is false here. -/
theorem C6_counterexample_status_stays_pending :
    Batch.get_job_status Batch.storeC6 Batch.celeryC6 "j1" = .ok Batch.recC6 ∧
    Batch.getField Batch.recC6 "celery_status" = some "FAILURE" ∧
    Batch.getField Batch.recC6 "status" = some "pending" ∧
    Batch.getField Batch.recC6 "status" ≠ some "failed" := by
  refine ⟨by decide, by decide, by decide, by decide⟩

/-- C7 counterexample: with two resolvable jobs enumerated older-first and
limit 1, list_jobs returns the older job and omits the strictly more recent
one, because the key list is truncated to the limit before any sorting; the
claim that the result is the limit most recently created jobs is false here. -/
theorem C7_counterexample_truncates_before_sorting :
    Batch.list_jobs Batch.storeC7 Batch.celeryC7 1 = [Batch.recC7a] ∧
    Batch.get_job_status Batch.storeC7 Batch.celeryC7 "j2" = .ok Batch.recC7b ∧
    Batch.createdKey Batch.recC7a < Batch.createdKey Batch.recC7b := by
  refine ⟨by decide, by decide, String.lt_iff_toList_lt.mpr (by decide)⟩

/-- C8 counterexample: the name "abc" followed by a newline does not match
the anchored identifier pattern read mathematically, so the claim predicts
a ValidationError — but Python re.match lets the dollar anchor match just
before one trailing newline, so the name passes _validate_table_name, the
existence check passes, and the call then dies in the interpolated DDL (the
newline splits the CREATE INDEX name into two tokens) with a PostgreSQL
syntax error: neither the claimed ValidationError nor a success. -/
theorem C8_counterexample_trailing_newline_db_error :
    VectorStore.strictIdentMatch "abc\n" = false ∧
    VectorStore.validate_table_name "abc\n" = true ∧
    VectorStore.ddlWellFormed "abc\n" = false ∧
    VectorStore.isValidationFailure
      (VectorStore.create_embedding_table VectorStore.dbInit "abc\n" none) = false ∧
    VectorStore.isPostgresFailure
      (VectorStore.create_embedding_table VectorStore.dbInit "abc\n" none) = true ∧
    (VectorStore.create_embedding_table VectorStore.dbInit "abc\n" none).isOk = false := by
  refine ⟨by decide, by decide, by decide, by decide, by decide, by decide⟩
/-- Every character normalizeNewlines emits is a newline or a character of
its input. -/
theorem Chunking.normalizeNewlines_mem (l : List Char) :
    ∀ c ∈ Chunking.normalizeNewlines l, c = '\n' ∨ c ∈ l := by
  induction l using Chunking.normalizeNewlines.induct
  case case1 => simp [Chunking.normalizeNewlines]
  all_goals intro d hd
  all_goals simp only [Chunking.normalizeNewlines, *, if_true, if_false] at hd
  case case2 => simp at hd; simp [hd]
  case case3 c hc => simp at hd; simp [hd]
  case case4 c1 c2 t hcond ih =>
    rcases List.mem_cons.mp hd with h | h
    · exact Or.inl h
    · rcases ih d h with h2 | h2
      · exact Or.inl h2
      · simp [h2]
  case case5 c2 t hcond ih =>
    split at hd
    · simp_all
    · rcases List.mem_cons.mp hd with h | h
      · exact Or.inl h
      · rcases ih d h with h2 | h2
        · exact Or.inl h2
        · simp [h2]
  case case6 c1 c2 t hcond1 hcond2 ih =>
    simp at hd
    rcases hd with h | h
    · simp [h]
    · rcases ih d h with h2 | h2
      · exact Or.inl h2
      · simp [h2]

/-- Every character of every line splitNl produces is a character of the
input. -/
theorem Chunking.splitNl_mem (l : List Char) :
    ∀ p ∈ Chunking.splitNl l, ∀ c ∈ p, c ∈ l := by
  induction l using Chunking.splitNl.induct
  case case1 => simp [Chunking.splitNl]
  case case2 t ih =>
    intro p hp c hc
    rw [Chunking.splitNl] at hp
    rcases List.mem_cons.mp hp with h | h
    · subst h; simp at hc
    · exact List.mem_cons_of_mem _ (ih p h c hc)
  case case3 a t hc0 hnil ih =>
    intro p hp c hc
    rw [Chunking.splitNl, hnil] at hp
    simp at hp
    subst hp
    simp at hc
    simp [hc]
    exact hc0
  case case4 a t hc0 p0 ps hcons ih =>
    intro p hp c hc
    rw [Chunking.splitNl, hcons] at hp
    rcases List.mem_cons.mp hp with h | h
    · subst h
      rcases List.mem_cons.mp hc with h2 | h2
      · simp [h2]
      · exact List.mem_cons_of_mem _ (ih p0 (hcons ▸ List.mem_cons_self p0 ps) c h2)
    · exact List.mem_cons_of_mem _ (ih p (hcons ▸ List.mem_cons_of_mem p0 h) c hc)
    exact hc0

/-- A list of whitespace characters strips to nothing. -/
theorem Chunking.stripChars_eq_nil (l : List Char) (h : ∀ c ∈ l, Chunking.isWS c = true) :
    Chunking.stripChars l = [] := by
  have h1 : l.dropWhile Chunking.isWS = [] := List.dropWhile_eq_nil_iff.mpr h
  simp [Chunking.stripChars, h1]

/-- With every line blank, the paragraph loop accumulates nothing. -/
theorem Chunking.paraAux_nil (lines : List (List Char))
    (h : ∀ line ∈ lines, Chunking.stripChars line = []) :
    Chunking.paraAux lines [] = [] := by
  induction lines with
  | nil => simp [Chunking.paraAux]
  | cons line rest ih =>
    have hl := h line (List.mem_cons_self line rest)
    rw [Chunking.paraAux, if_pos hl, if_pos rfl]
    exact ih (fun l hm => h l (List.mem_cons_of_mem _ hm))

/-- A whitespace-only text has no paragraphs. -/
theorem Chunking.split_into_paragraphs_eq_nil (text : List Char)
    (h : ∀ c ∈ text, Chunking.isWS c = true) :
    Chunking.split_into_paragraphs text = [] := by
  have hn : ∀ c ∈ Chunking.normalizeNewlines text, Chunking.isWS c = true := by
    intro c hc
    rcases Chunking.normalizeNewlines_mem text c hc with h2 | h2
    · subst h2; decide
    · exact h c h2
  have hlines : ∀ line ∈ Chunking.splitNl (Chunking.normalizeNewlines text),
      Chunking.stripChars line = [] := fun line hline =>
    Chunking.stripChars_eq_nil line
      (fun c hc => hn c (Chunking.splitNl_mem _ line hline c hc))
  unfold Chunking.split_into_paragraphs
  rw [Chunking.paraAux_nil _ hlines]
  rfl

/-- C10: a non-empty input consisting only of whitespace characters yields
zero chunks (the paragraph splitter discards every blank line and the packing
loop never opens a chunk), while the empty string yields exactly one empty
chunk through the early return; such as the inputs of two spaces and of two
newlines. -/
theorem C10_whitespace_only_yields_no_chunks :
    (∀ (maxChars overlap : Nat) (s : String), s ≠ "" →
        (∀ c ∈ s.data, Chunking.isWS c = true) →
        Chunking.chunk_text maxChars overlap s = []) ∧
    (∀ maxChars overlap : Nat, Chunking.chunk_text maxChars overlap "" = [""]) ∧
    Chunking.chunk_text 1500 200 "  " = [] ∧
    Chunking.chunk_text 1500 200 "\n\n" = [] := by
  refine ⟨?_, ?_, by decide, by decide⟩
  · intro maxChars overlap s hs hws
    have hd : s.data ≠ [] := by
      intro h0
      apply hs
      cases s with
      | mk d => exact (congrArg String.mk h0).trans rfl
    unfold Chunking.chunk_text Chunking.chunk_textL
    rw [if_neg hd, Chunking.split_into_paragraphs_eq_nil s.data hws]
    rfl
  · intro maxChars overlap
    rfl

/-- C8 amended: create_embedding_table raises the ValueError surfaced as
ValidationError exactly when the name fails the identifier pattern as Python
re.match applies it (which also accepts one trailing newline after a
matching name), or its lowercase form is in the reserved blocklist, or a
table of that name already exists — in particular 1abc, select and my-table
all fail with ValidationError for every database state. A name that passes
validation is not guaranteed to succeed: spliced raw into the DDL it can
still raise a non-Validation PostgreSQL error, as the trailing-newline name
and the reserved keyword where (absent from the blocklist) do, while a
clean unreserved fresh name such as docs does succeed. -/
theorem C8_amended_validation_rules :
    (∀ (db : VectorStore.Database) (name : String) (desc : Option String),
        VectorStore.isValidationFailure (VectorStore.create_embedding_table db name desc) =
            true ↔
          (VectorStore.pyIdentMatch name = false ∨
           VectorStore.reservedWords.contains (VectorStore.lowerStr name) = true ∨
           db.tables.contains name = true)) ∧
    VectorStore.validate_table_name "1abc" = false ∧
    VectorStore.validate_table_name "select" = false ∧
    VectorStore.validate_table_name "my-table" = false ∧
    (∀ (db : VectorStore.Database) (desc : Option String),
        VectorStore.isValidationFailure
          (VectorStore.create_embedding_table db "1abc" desc) = true ∧
        VectorStore.isValidationFailure
          (VectorStore.create_embedding_table db "select" desc) = true ∧
        VectorStore.isValidationFailure
          (VectorStore.create_embedding_table db "my-table" desc) = true) ∧
    VectorStore.validate_table_name "where" = true ∧
    VectorStore.isPostgresFailure
      (VectorStore.create_embedding_table VectorStore.dbInit "where" none) = true ∧
    (VectorStore.create_embedding_table VectorStore.dbInit "docs" none).isOk = true := by
  refine ⟨?_, by decide, by decide, by decide, ?_, by decide, by decide, by decide⟩
  · intro db name desc
    unfold VectorStore.create_embedding_table VectorStore.validate_table_name
    cases hv : VectorStore.pyIdentMatch name <;>
      cases hr : VectorStore.reservedWords.contains (VectorStore.lowerStr name) <;>
        cases he : db.tables.contains name <;>
          cases hw : VectorStore.ddlWellFormed name <;>
            cases hf : db.tables.contains (VectorStore.lowerStr name) <;>
              simp [hv, hr, he, hw, hf, VectorStore.isValidationFailure]
  · intro db desc
    refine ⟨?_, ?_, ?_⟩
    · simp [VectorStore.create_embedding_table, VectorStore.isValidationFailure,
        show VectorStore.validate_table_name "1abc" = false from by decide]
    · simp [VectorStore.create_embedding_table, VectorStore.isValidationFailure,
        show VectorStore.validate_table_name "select" = false from by decide]
    · simp [VectorStore.create_embedding_table, VectorStore.isValidationFailure,
        show VectorStore.validate_table_name "my-table" = false from by decide]

/-- Everything search_similar returns satisfies every filter predicate. -/
theorem VectorStore.search_similar_mem_filters
    {dist : List Rat → List Rat → Rat} {db : VectorStore.Database}
    {svc : VectorStore.ServiceState} {q : List Rat} {topK : Nat} {thr : Rat}
    {filters : List (String × String)} {res : VectorStore.SearchResult}
    (h : res ∈ VectorStore.search_similar dist db svc q topK thr filters) :
    ∀ kv ∈ filters, VectorStore.metaGet res.metadata kv.1 = some kv.2 := by
  intro kv hkv
  simp only [VectorStore.search_similar, List.mem_map] at h
  obtain ⟨r, hr, hres⟩ := h
  have hr2 := List.mem_of_mem_take hr
  rw [List.mem_insertionSort, List.mem_filter, Bool.and_eq_true] at hr2
  have hfm := hr2.2.2
  unfold VectorStore.filtersMatch at hfm
  have hkv2 := List.all_eq_true.mp hfm kv hkv
  rw [decide_eq_true_eq] at hkv2
  rw [← hres]
  exact hkv2

/-- C4: search results satisfy every equality predicate of the filters
(string comparison of top-level metadata keys); a row whose metadata carries
source = b is never returned under the filter source = a, whatever the
distance oracle, query, threshold or limit; the empty filter set constrains
nothing; and in the concrete two-row database only the source = a row comes
back. -/
theorem C4_search_filters_conjunction :
    (∀ (dist : List Rat → List Rat → Rat) (db : VectorStore.Database)
        (svc : VectorStore.ServiceState) (q : List Rat) (topK : Nat) (thr : Rat)
        (filters : List (String × String)) (res : VectorStore.SearchResult),
        res ∈ VectorStore.search_similar dist db svc q topK thr filters →
        ∀ kv ∈ filters, VectorStore.metaGet res.metadata kv.1 = some kv.2) ∧
    (∀ (dist : List Rat → List Rat → Rat) (db : VectorStore.Database)
        (svc : VectorStore.ServiceState) (q : List Rat) (topK : Nat) (thr : Rat)
        (res : VectorStore.SearchResult),
        VectorStore.metaGet res.metadata "source" = some "b" →
        res ∉ VectorStore.search_similar dist db svc q topK thr [("source", "a")]) ∧
    (∀ r : VectorStore.Row, VectorStore.filtersMatch [] r = true) ∧
    VectorStore.search_similar (fun _ _ => 0) VectorStore.dbC4 ⟨none⟩ [1] 10 (1 / 2)
        [("source", "a")] =
      [⟨"da", "ca", some [("source", "a")], 1⟩] := by
  refine ⟨?_, ?_, ?_, ?_⟩
  · intro dist db svc q topK thr filters res h
    exact VectorStore.search_similar_mem_filters h
  · intro dist db svc q topK thr res hb hmem
    have ha := VectorStore.search_similar_mem_filters hmem ("source", "a")
      (List.mem_singleton.mpr rfl)
    rw [hb] at ha
    simp at ha
  · intro r
    rfl
  · have hA : VectorStore.filtersMatch [("source", "a")] VectorStore.rowA = true := by decide
    have hB : VectorStore.filtersMatch [("source", "a")] VectorStore.rowB = false := by decide
    have hsim : ((1 : Rat) - 0 > 1 / 2) := by norm_num
    simp only [VectorStore.search_similar, VectorStore.dbC4, if_pos rfl, List.filter]
    rw [decide_eq_true hsim]
    simp [hA, hB, List.insertionSort, List.orderedInsert]
    norm_num [VectorStore.rowA]

/-- Counting a predicate and its negation exhausts a list. -/
theorem Batch.countP_add_countP_neg (p : Batch.BatchDoc → Prop) [DecidablePred p]
    (l : List Batch.BatchDoc) :
    l.countP (fun d => decide (p d)) + l.countP (fun d => !decide (p d)) = l.length := by
  induction l with
  | nil => simp
  | cons d ds ih =>
    by_cases h : p d <;> simp [List.countP_cons, h, ← ih] <;> omega

/-- When every non-empty document succeeds, the loop counts the non-empty
documents as processed provider calls and the empty ones as failures, and
appends no error. -/
theorem Batch.processFrom_all_ok (run : Nat → Batch.BatchDoc → Except String Unit) :
    ∀ (ds : List Batch.BatchDoc) (i : Nat) (st : Batch.LoopState),
      (∀ p ∈ List.enumFrom i ds, p.2.content ≠ "" → run p.1 p.2 = .ok ()) →
      Batch.processFrom run i ds st =
        ⟨st.processed + ds.countP (fun d => !decide (d.content = "")),
         st.failed + ds.countP (fun d => decide (d.content = "")),
         st.errors,
         st.providerCalls + ds.countP (fun d => !decide (d.content = ""))⟩ := by
  intro ds
  induction ds with
  | nil => intro i st h; simp [Batch.processFrom]
  | cons d ds ih =>
    intro i st h
    have htail : ∀ p ∈ List.enumFrom (i + 1) ds, p.2.content ≠ "" → run p.1 p.2 = .ok () :=
      fun p hp => h p (by rw [List.enumFrom_cons]; exact List.mem_cons_of_mem _ hp)
    rw [Batch.processFrom, ih (i + 1) _ htail]
    by_cases hc : d.content = ""
    · have hone : Batch.processOne run i d st = { st with failed := st.failed + 1 } := by
        simp [Batch.processOne, hc]
      rw [hone]
      simp [List.countP_cons, hc]
      omega
    · have hrun : run i d = .ok () :=
        h (i, d) (by rw [List.enumFrom_cons]; exact List.mem_cons_self _ _) hc
      have hone : Batch.processOne run i d st =
          { st with processed := st.processed + 1, providerCalls := st.providerCalls + 1 } := by
        simp [Batch.processOne, hc, hrun]
      rw [hone]
      simp [List.countP_cons, hc]
      omega

/-- C5: a batch of five documents with exactly one empty-content document,
where the provider-and-store step succeeds on every non-empty document, ends
with total 5, processed 4, failed 1, an empty error list, and exactly four
provider invocations — the empty document is counted failed, skipped without
calling the provider, and contributes no error string. -/
theorem C5_empty_content_is_silent_failure :
    ∀ (run : Nat → Batch.BatchDoc → Except String Unit) (docs : List Batch.BatchDoc),
      docs.length = 5 →
      docs.countP (fun d => decide (d.content = "")) = 1 →
      (∀ p ∈ docs.enum, p.2.content ≠ "" → run p.1 p.2 = .ok ()) →
      Batch.process_documents_async run docs = ⟨"completed", 5, 4, 1, [], 4⟩ := by
  intro run docs h5 h1 hok
  have h4 : docs.countP (fun d => !decide (d.content = "")) = 4 := by
    have hsum := Batch.countP_add_countP_neg (fun d => d.content = "") docs
    omega
  unfold Batch.process_documents_async
  rw [show docs.enum = List.enumFrom 0 docs from rfl] at hok
  rw [Batch.processFrom_all_ok run docs 0 ⟨0, 0, [], 0⟩ hok]
  simp [h5, h1, h4]

/-- The C5 scenario at a concrete batch: five documents, the second empty,
a provider that succeeds on everything else. -/
theorem C5_witness_concrete_batch :
    Batch.process_documents_async Batch.runC5 Batch.docsC5 =
      ⟨"completed", 5, 4, 1, [], 4⟩ :=
  C5_empty_content_is_silent_failure Batch.runC5 Batch.docsC5 (by decide) (by decide) (by decide)

/-- hset of a field makes that field readable. -/
theorem Batch.getField_setField_self (rec : Batch.Record) (k v : String) :
    Batch.getField (Batch.setField rec k v) k = some v := by
  unfold Batch.setField
  by_cases h : rec.any (fun kv => kv.1 = k)
  · rw [if_pos h]
    induction rec with
    | nil => simp at h
    | cons kv rest ih =>
      by_cases hk : kv.1 = k
      · simp [Batch.getField, List.find?_cons, hk]
      · have h2 : rest.any (fun kv => kv.1 = k) := by
          rcases List.any_eq_true.mp h with ⟨x, hx, hpx⟩
          rcases List.mem_cons.mp hx with rfl | hx2
          · exact absurd (of_decide_eq_true hpx) hk
          · exact List.any_eq_true.mpr ⟨x, hx2, hpx⟩
        simp only [List.map_cons, if_neg hk]
        simp only [Batch.getField, List.find?_cons, decide_eq_false hk]
        exact ih h2
  · rw [if_neg h]
    have hnone : rec.find? (fun kv => decide (kv.1 = k)) = none := by
      rw [List.find?_eq_none]
      intro x hx
      simp only [decide_eq_true_eq]
      intro hxk
      exact h (List.any_eq_true.mpr ⟨x, hx, decide_eq_true hxk⟩)
    simp [Batch.getField, List.find?_append, hnone]

/-- hset of one field leaves every other field unchanged. -/
theorem Batch.getField_setField_ne (rec : Batch.Record) (k v k2 : String) (hne : k2 ≠ k) :
    Batch.getField (Batch.setField rec k v) k2 = Batch.getField rec k2 := by
  unfold Batch.setField
  by_cases h : rec.any (fun kv => kv.1 = k)
  · rw [if_pos h]
    clear h
    induction rec with
    | nil => simp
    | cons kv rest ih =>
      by_cases hk : kv.1 = k
      · have hk2 : ¬ ((k : String), v).1 = k2 := fun hh => hne hh.symm
        have hk2b : ¬ kv.1 = k2 := by rw [hk]; exact fun hh => hne hh.symm
        simp only [List.map_cons, if_pos hk]
        simp only [Batch.getField, List.find?_cons, decide_eq_false hk2,
          decide_eq_false hk2b]
        exact ih
      · simp only [List.map_cons, if_neg hk]
        by_cases hk3 : kv.1 = k2
        · simp only [Batch.getField, List.find?_cons, decide_eq_true hk3]
        · simp only [Batch.getField, List.find?_cons, decide_eq_false hk3]
          exact ih
  · rw [if_neg h]
    have hlast : List.find? (fun kv => decide (kv.1 = k2)) [((k : String), v)] = none := by
      have hnk : ¬ ((k : String), v).1 = k2 := fun hh => hne hh.symm
      simp [List.find?_cons, decide_eq_false hnk]
    simp [Batch.getField, List.find?_append, hlast]

/-- C6 amended: when the persisted record of a job has a task handle whose
queue state is a terminal failure, get_job_status succeeds and returns the
persisted record with celery_status set to FAILURE; the failure is surfaced
only through that added field, while the status field keeps whatever value
was persisted (for a crashed worker that is pending forever) because the
stored failure result is an exception, not a dict, and is never merged. -/
theorem C6_amended_failure_surfaced_as_celery_status :
    ∀ (store : Batch.JobStore) (celery : String → Batch.CeleryResult) (id : String)
      (rec0 : Batch.Record) (tid e : String),
      ((store.find? (fun kv => decide (kv.1 = id))).map (fun kv => kv.2)).getD [] = rec0 →
      rec0 ≠ [] →
      Batch.getField rec0 "celery_task_id" = some tid →
      celery tid = .failure e →
      Batch.get_job_status store celery id =
        .ok (Batch.setField rec0 "celery_status" "FAILURE") ∧
      Batch.getField (Batch.setField rec0 "celery_status" "FAILURE") "celery_status" =
        some "FAILURE" ∧
      Batch.getField (Batch.setField rec0 "celery_status" "FAILURE") "status" =
        Batch.getField rec0 "status" := by
  intro store celery id rec0 tid e h0 hne htid hcel
  refine ⟨?_, Batch.getField_setField_self rec0 "celery_status" "FAILURE",
    Batch.getField_setField_ne rec0 "celery_status" "FAILURE" "status" (by decide)⟩
  simp only [Batch.get_job_status]
  rw [h0, if_neg hne, htid]
  simp [hcel, Batch.celeryReady, Batch.celeryStatusStr]

/-- The C6 amendment at the crashed-worker store: the returned record carries
celery_status FAILURE while its status field stays the persisted pending. -/
theorem C6_amended_witness :
    Batch.get_job_status Batch.storeC6 Batch.celeryC6 "j1" =
      .ok (Batch.setField Batch.recC6pre "celery_status" "FAILURE") ∧
    Batch.getField (Batch.setField Batch.recC6pre "celery_status" "FAILURE") "celery_status" =
      some "FAILURE" ∧
    Batch.getField (Batch.setField Batch.recC6pre "celery_status" "FAILURE") "status" =
      Batch.getField Batch.recC6pre "status" :=
  C6_amended_failure_surfaced_as_celery_status Batch.storeC6 Batch.celeryC6 "j1"
    Batch.recC6pre "t1" "boom" (by decide) (by decide) (by decide) (by decide)

/-- toOption inverts exactly on ok results. -/
theorem Batch.except_toOption_eq_some {ε α : Type} (e : Except ε α) (a : α) :
    e.toOption = some a ↔ e = .ok a := by
  cases e <;> simp [Except.toOption]

/-- The resolution loop of list_jobs collects, in key order, exactly the
records of the keys that resolve. -/
theorem Batch.list_jobs_foldl (store : Batch.JobStore) (celery : String → Batch.CeleryResult) :
    ∀ (keys : List String) (acc : List Batch.Record),
      keys.foldl
        (fun acc id =>
          match Batch.get_job_status store celery id with
          | .ok rec => acc ++ [rec]
          | .error _ => acc) acc =
      acc ++ keys.filterMap (fun id => (Batch.get_job_status store celery id).toOption) := by
  intro keys
  induction keys with
  | nil => intro acc; simp
  | cons k ks ih =>
    intro acc
    rw [List.foldl_cons, ih]
    cases h : Batch.get_job_status store celery k with
    | ok rec => simp [List.filterMap_cons, h, Except.toOption]
    | error e => simp [List.filterMap_cons, h, Except.toOption]

/-- C7 amended: list_jobs truncates the enumerated keys to the limit first,
then resolves and sorts; the result has at most limit entries, is sorted by
creation time descending, and holds exactly the resolvable jobs among the
first limit enumerated keys — an unresolvable job is skipped without
aborting the others, but jobs beyond the first limit keys are never
considered, so the result need not be the globally most recent jobs. -/
theorem C7_amended_truncate_then_sort :
    ∀ (store : Batch.JobStore) (celery : String → Batch.CeleryResult) (limit : Nat),
      (Batch.list_jobs store celery limit).length ≤ limit ∧
      List.Pairwise (fun a b => Batch.createdKey b ≤ Batch.createdKey a)
        (Batch.list_jobs store celery limit) ∧
      ∀ rec : Batch.Record,
        rec ∈ Batch.list_jobs store celery limit ↔
          ∃ kv ∈ store.take limit, Batch.get_job_status store celery kv.1 = .ok rec := by
  intro store celery limit
  haveI : IsTrans Batch.Record (fun a b => Batch.createdKey b ≤ Batch.createdKey a) :=
    ⟨fun _ _ _ h1 h2 => le_trans h2 h1⟩
  haveI : IsTotal Batch.Record (fun a b => Batch.createdKey b ≤ Batch.createdKey a) :=
    ⟨fun a b => le_total (Batch.createdKey b) (Batch.createdKey a)⟩
  simp only [Batch.list_jobs, Batch.list_jobs_foldl, List.nil_append]
  refine ⟨?_, ?_, ?_⟩
  · rw [List.length_insertionSort]
    exact le_trans (List.length_filterMap_le _ _) (List.length_take_le _ _)
  · exact List.sorted_insertionSort _ _
  · intro rec
    rw [List.mem_insertionSort, List.mem_filterMap, ← List.map_take]
    constructor
    · rintro ⟨a, ha, hsome⟩
      rcases List.mem_map.mp ha with ⟨kv, hkv, rfl⟩
      exact ⟨kv, hkv, (Batch.except_toOption_eq_some _ _).mp hsome⟩
    · rintro ⟨kv, hkv, hok⟩
      exact ⟨kv.1, List.mem_map.mpr ⟨kv, hkv, rfl⟩,
        (Batch.except_toOption_eq_some _ _).mpr hok⟩

/-- The DO UPDATE branch never changes a document id. -/
theorem VectorStore.updateRow_id (d c : String) (e : List Rat)
    (m : Option (List (String × String))) (t : Nat) (r : VectorStore.Row) :
    (VectorStore.updateRow d c e m t r).document_id = r.document_id := by
  unfold VectorStore.updateRow
  split <;> rfl

/-- How one upsert changes the row count of any document id. -/
theorem VectorStore.countP_upsert (rows : List VectorStore.Row) (d' c : String)
    (e : List Rat) (m : Option (List (String × String))) (t : Nat) (d : String) :
    (VectorStore.upsertRow rows d' c e m t).countP (fun r => decide (r.document_id = d)) =
      if rows.any (fun r => r.document_id = d') then
        rows.countP (fun r => decide (r.document_id = d))
      else
        rows.countP (fun r => decide (r.document_id = d)) + (if d' = d then 1 else 0) := by
  unfold VectorStore.upsertRow
  by_cases h : rows.any (fun r => r.document_id = d')
  · rw [if_pos h, if_pos h, List.countP_map]
    congr 1
    funext r
    simp [Function.comp, VectorStore.updateRow_id]
  · rw [if_neg h, if_neg h, List.countP_append]
    congr 1
    simp [List.countP_cons]

/-- Upserts preserve the at-most-one-row-per-id invariant. -/
theorem VectorStore.countP_upsert_le (rows : List VectorStore.Row) (d' c : String)
    (e : List Rat) (m : Option (List (String × String))) (t : Nat)
    (hinv : ∀ d2, rows.countP (fun r => decide (r.document_id = d2)) ≤ 1) :
    ∀ d2, (VectorStore.upsertRow rows d' c e m t).countP
      (fun r => decide (r.document_id = d2)) ≤ 1 := by
  intro d2
  rw [VectorStore.countP_upsert]
  by_cases h : rows.any (fun r => r.document_id = d')
  · rw [if_pos h]; exact hinv d2
  · rw [if_neg h]
    by_cases hd : d' = d2
    · subst hd
      have h0 : rows.countP (fun r => decide (r.document_id = d')) = 0 := by
        rw [List.countP_eq_zero]
        intro r hr hpr
        exact absurd (List.any_eq_true.mpr ⟨r, hr, hpr⟩) h
      simp [h0]
    · simp [hd, hinv d2]

/-- Upserting a document id leaves exactly one row with it. -/
theorem VectorStore.countP_upsert_self (rows : List VectorStore.Row) (d c : String)
    (e : List Rat) (m : Option (List (String × String))) (t : Nat)
    (hinv : rows.countP (fun r => decide (r.document_id = d)) ≤ 1) :
    (VectorStore.upsertRow rows d c e m t).countP
      (fun r => decide (r.document_id = d)) = 1 := by
  rw [VectorStore.countP_upsert]
  by_cases h : rows.any (fun r => r.document_id = d)
  · rw [if_pos h]
    rcases List.any_eq_true.mp h with ⟨r, hr, hpr⟩
    have hpos : 0 < rows.countP (fun r => decide (r.document_id = d)) :=
      List.countP_pos_iff.mpr ⟨r, hr, hpr⟩
    omega
  · rw [if_neg h]
    have h0 : rows.countP (fun r => decide (r.document_id = d)) = 0 := by
      rw [List.countP_eq_zero]
      intro r hr hpr
      exact absurd (List.any_eq_true.mpr ⟨r, hr, hpr⟩) h
    simp [h0]

/-- Upserting a different document id does not change the count of this one. -/
theorem VectorStore.countP_upsert_other (rows : List VectorStore.Row) (d' c : String)
    (e : List Rat) (m : Option (List (String × String))) (t : Nat) (d : String)
    (hne : d' ≠ d) :
    (VectorStore.upsertRow rows d' c e m t).countP (fun r => decide (r.document_id = d)) =
      rows.countP (fun r => decide (r.document_id = d)) := by
  rw [VectorStore.countP_upsert]
  split <;> simp [hne]

/-- One step of applyUpserts. -/
theorem VectorStore.applyUpserts_cons (rows : List VectorStore.Row)
    (c : VectorStore.StoreCall) (cs : List VectorStore.StoreCall) :
    VectorStore.applyUpserts rows (c :: cs) =
      VectorStore.applyUpserts
        (VectorStore.upsertRow rows c.document_id c.content c.embedding c.metadata c.time)
        cs := rfl

/-- After a call sequence touching a document id, starting from a table
satisfying the uniqueness invariant, exactly one row carries that id. -/
theorem VectorStore.countP_applyUpserts (calls : List VectorStore.StoreCall) :
    ∀ (rows : List VectorStore.Row) (d : String),
      (∀ d2, rows.countP (fun r => decide (r.document_id = d2)) ≤ 1) →
      ((∃ c ∈ calls, c.document_id = d) ∨
        rows.countP (fun r => decide (r.document_id = d)) = 1) →
      (VectorStore.applyUpserts rows calls).countP
        (fun r => decide (r.document_id = d)) = 1 := by
  induction calls with
  | nil =>
    intro rows d hinv hcase
    rcases hcase with ⟨c, hc, _⟩ | h1
    · simp at hc
    · exact h1
  | cons c cs ih =>
    intro rows d hinv hcase
    rw [VectorStore.applyUpserts_cons]
    apply ih _ d (VectorStore.countP_upsert_le rows _ _ _ _ _ hinv)
    rcases hcase with ⟨c0, hc0, hid⟩ | h1
    · rcases List.mem_cons.mp hc0 with rfl | htail
      · right
        rw [hid]
        exact VectorStore.countP_upsert_self rows d _ _ _ _ (hinv d)
      · exact Or.inl ⟨c0, htail, hid⟩
    · right
      by_cases hcd : c.document_id = d
      · rw [hcd]
        exact VectorStore.countP_upsert_self rows d _ _ _ _ (hinv d)
      · rw [VectorStore.countP_upsert_other rows _ _ _ _ _ d hcd]
        exact h1

/-- The updated row found when the conflicting id was present. -/
theorem VectorStore.find?_map_update (d c : String) (e : List Rat)
    (m : Option (List (String × String))) (t : Nat) :
    ∀ rows : List VectorStore.Row,
      rows.any (fun r => r.document_id = d) = true →
      ∃ r0, (rows.map (VectorStore.updateRow d c e m t)).find?
          (fun r => decide (r.document_id = d)) = some r0 ∧
        r0.document_id = d ∧ r0.content = c ∧ r0.embedding = e ∧ r0.metadata = m ∧
        r0.updated_at = t := by
  intro rows
  induction rows with
  | nil => intro h; simp at h
  | cons r rest ih =>
    intro h
    by_cases hr : r.document_id = d
    · refine ⟨VectorStore.updateRow d c e m t r, ?_, ?_, ?_, ?_, ?_, ?_⟩
      · rw [List.map_cons, List.find?_cons,
          decide_eq_true (by rw [VectorStore.updateRow_id]; exact hr :
            (VectorStore.updateRow d c e m t r).document_id = d)]
      · rw [VectorStore.updateRow_id]; exact hr
      · simp [VectorStore.updateRow, hr]
      · simp [VectorStore.updateRow, hr]
      · simp [VectorStore.updateRow, hr]
      · simp [VectorStore.updateRow, hr]
    · have h2 : rest.any (fun r => r.document_id = d) = true := by
        rcases List.any_eq_true.mp h with ⟨x, hx, hpx⟩
        rcases List.mem_cons.mp hx with rfl | hx2
        · exact absurd (of_decide_eq_true hpx) hr
        · exact List.any_eq_true.mpr ⟨x, hx2, hpx⟩
      rcases ih h2 with ⟨r0, hfind, hrest⟩
      refine ⟨r0, ?_, hrest⟩
      rw [List.map_cons, List.find?_cons,
        decide_eq_false (by rw [VectorStore.updateRow_id]; exact hr :
          ¬ (VectorStore.updateRow d c e m t r).document_id = d)]
      exact hfind

/-- The row an upsert leaves for its own document id carries the new data. -/
theorem VectorStore.find?_upsert_self (rows : List VectorStore.Row) (d c : String)
    (e : List Rat) (m : Option (List (String × String))) (t : Nat) :
    ∃ r, (VectorStore.upsertRow rows d c e m t).find?
        (fun r => decide (r.document_id = d)) = some r ∧
      r.document_id = d ∧ r.content = c ∧ r.embedding = e ∧ r.metadata = m ∧
      r.updated_at = t := by
  unfold VectorStore.upsertRow
  by_cases ha : rows.any (fun r => r.document_id = d)
  · rw [if_pos ha]
    exact VectorStore.find?_map_update d c e m t rows ha
  · rw [if_neg ha]
    have hnone : rows.find? (fun r => decide (r.document_id = d)) = none := by
      rw [List.find?_eq_none]
      intro x hx hpx
      exact ha (List.any_eq_true.mpr ⟨x, hx, hpx⟩)
    refine ⟨⟨d, c, e, m, t, t⟩, ?_, rfl, rfl, rfl, rfl, rfl⟩
    rw [List.find?_append, hnone]
    simp [List.find?_cons]

/-- An upsert of a different document id does not change what find? sees for
this one. -/
theorem VectorStore.find?_upsert_other (rows : List VectorStore.Row) (d' c : String)
    (e : List Rat) (m : Option (List (String × String))) (t : Nat) (d : String)
    (hne : d' ≠ d) :
    (VectorStore.upsertRow rows d' c e m t).find? (fun r => decide (r.document_id = d)) =
      rows.find? (fun r => decide (r.document_id = d)) := by
  unfold VectorStore.upsertRow
  by_cases ha : rows.any (fun r => r.document_id = d')
  · rw [if_pos ha]
    clear ha
    induction rows with
    | nil => rfl
    | cons r rest ih =>
      rw [List.map_cons, List.find?_cons, List.find?_cons]
      by_cases hr : r.document_id = d
      · have hupd : VectorStore.updateRow d' c e m t r = r := by
          unfold VectorStore.updateRow
          rw [if_neg (by rw [hr]; exact fun hh => hne hh.symm)]
        rw [hupd, decide_eq_true hr]
      · rw [decide_eq_false hr,
          decide_eq_false (by rw [VectorStore.updateRow_id]; exact hr :
            ¬ (VectorStore.updateRow d' c e m t r).document_id = d)]
        exact ih
  · rw [if_neg ha]
    rw [List.find?_append]
    have hlast : List.find? (fun r => decide (r.document_id = d))
        [(⟨d', c, e, m, t, t⟩ : VectorStore.Row)] = none := by
      simp [List.find?_cons, hne]
    rw [hlast, Option.or_none]

/-- A call sequence never touching a document id leaves find? unchanged on
it. -/
theorem VectorStore.find?_applyUpserts_nocall (cs : List VectorStore.StoreCall) :
    ∀ (rows : List VectorStore.Row) (d : String),
      (∀ c2 ∈ cs, c2.document_id ≠ d) →
      (VectorStore.applyUpserts rows cs).find? (fun r => decide (r.document_id = d)) =
        rows.find? (fun r => decide (r.document_id = d)) := by
  induction cs with
  | nil => intro rows d _; rfl
  | cons c cs ih =>
    intro rows d h
    rw [VectorStore.applyUpserts_cons,
      ih _ d (fun c2 hc2 => h c2 (List.mem_cons_of_mem _ hc2)),
      VectorStore.find?_upsert_other _ _ _ _ _ _ _ (h c (List.mem_cons_self c cs))]

/-- lastFor finds nothing exactly when no call targets the id. -/
theorem VectorStore.lastFor_eq_none_iff (d : String) :
    ∀ cs : List VectorStore.StoreCall,
      VectorStore.lastFor d cs = none ↔ ∀ c ∈ cs, c.document_id ≠ d := by
  intro cs
  induction cs with
  | nil => simp [VectorStore.lastFor]
  | cons c cs ih =>
    rw [VectorStore.lastFor]
    cases h : VectorStore.lastFor d cs with
    | some c2 =>
      apply iff_of_false (by simp)
      intro hall
      have hnone : VectorStore.lastFor d cs = none :=
        ih.mpr (fun c3 hc3 => hall c3 (List.mem_cons_of_mem _ hc3))
      exact absurd (hnone.symm.trans h) (by simp)
    | none =>
      by_cases hcd : c.document_id = d
      · rw [if_pos hcd]
        apply iff_of_false (by simp)
        intro hall
        exact hall c (List.mem_cons_self c cs) hcd
      · rw [if_neg hcd]
        apply iff_of_true rfl
        intro c2 hc2
        rcases List.mem_cons.mp hc2 with rfl | htail
        · exact hcd
        · exact (ih.mp h) c2 htail

/-- Some call targets the id exactly when lastFor finds one. -/
theorem VectorStore.lastFor_isSome (calls : List VectorStore.StoreCall) (d : String)
    (hex : ∃ c ∈ calls, c.document_id = d) :
    ∃ c2, VectorStore.lastFor d calls = some c2 := by
  cases h : VectorStore.lastFor d calls with
  | some c2 => exact ⟨c2, rfl⟩
  | none =>
    rcases hex with ⟨c0, hc0, hid⟩
    exact absurd hid ((VectorStore.lastFor_eq_none_iff d calls).mp h c0 hc0)

/-- After the whole call sequence, the row found for a document id carries
the data and timestamp of the last call that targeted it. -/
theorem VectorStore.find?_applyUpserts_lastFor :
    ∀ (calls : List VectorStore.StoreCall) (rows : List VectorStore.Row) (d : String)
      (c2 : VectorStore.StoreCall),
      VectorStore.lastFor d calls = some c2 →
      ∃ r, (VectorStore.applyUpserts rows calls).find?
          (fun r => decide (r.document_id = d)) = some r ∧
        r.document_id = d ∧ r.content = c2.content ∧ r.embedding = c2.embedding ∧
        r.metadata = c2.metadata ∧ r.updated_at = c2.time := by
  intro calls
  induction calls with
  | nil => intro rows d c2 h; simp [VectorStore.lastFor] at h
  | cons c cs ih =>
    intro rows d c2 hlast
    rw [VectorStore.lastFor] at hlast
    rw [VectorStore.applyUpserts_cons]
    cases h : VectorStore.lastFor d cs with
    | some c3 =>
      rw [h] at hlast
      simp only [Option.some.injEq] at hlast
      subst hlast
      exact ih _ d _ h
    | none =>
      rw [h] at hlast
      by_cases hcd : c.document_id = d
      · rw [if_pos hcd] at hlast
        simp only [Option.some.injEq] at hlast
        subst hlast
        rw [VectorStore.find?_applyUpserts_nocall cs _ d
          ((VectorStore.lastFor_eq_none_iff d cs).mp h), ← hcd]
        exact VectorStore.find?_upsert_self rows c.document_id c.content
          c.embedding c.metadata c.time
      · rw [if_neg hcd] at hlast
        cases hlast

/-- The last call of a sequence extended by one more call. -/
theorem VectorStore.lastFor_append_last (d : String) (c : VectorStore.StoreCall) :
    ∀ p : List VectorStore.StoreCall,
      VectorStore.lastFor d (p ++ [c]) =
        if c.document_id = d then some c else VectorStore.lastFor d p := by
  intro p
  induction p with
  | nil =>
    rw [List.nil_append]
    rfl
  | cons q qs ih =>
    rw [List.cons_append, VectorStore.lastFor, ih]
    by_cases hcd : c.document_id = d
    · rw [if_pos hcd, if_pos hcd]
    · rw [if_neg hcd, if_neg hcd, VectorStore.lastFor]

/-- A sequence of store_embedding calls acts on the embeddings table as the
corresponding upserts, whatever the instance state. -/
theorem VectorStore.applyStores_rows_embeddings :
    ∀ (calls : List VectorStore.StoreCall) (db : VectorStore.Database)
      (svc : VectorStore.ServiceState),
      (VectorStore.applyStores db svc calls).rows "embeddings" =
        VectorStore.applyUpserts (db.rows "embeddings") calls := by
  intro calls
  induction calls with
  | nil => intro db svc; rfl
  | cons c cs ih =>
    intro db svc
    have hstep : (VectorStore.store_embedding db svc c.document_id c.content c.embedding
        c.metadata c.time).rows "embeddings" =
        VectorStore.upsertRow (db.rows "embeddings") c.document_id c.content c.embedding
          c.metadata c.time := by
      simp [VectorStore.store_embedding]
    show (VectorStore.applyStores (VectorStore.store_embedding db svc c.document_id
        c.content c.embedding c.metadata c.time) svc cs).rows "embeddings" = _
    rw [ih, hstep, VectorStore.applyUpserts_cons]

/-- In a strictly increasing timestamp sequence, a call strictly precedes in
time every later call. -/
theorem VectorStore.time_lt_of_split (calls p s : List VectorStore.StoreCall)
    (c : VectorStore.StoreCall)
    (hsplit : calls = p ++ c :: s)
    (hpw : (calls.map (fun c => c.time)).Pairwise (· < ·)) :
    ∀ c2 ∈ s, c.time < c2.time := by
  intro c2 hc2
  subst hsplit
  rw [List.map_append, List.map_cons] at hpw
  have h2 := (List.pairwise_append.mp hpw).2.1
  exact (List.pairwise_cons.mp h2).1 _ (List.mem_map_of_mem _ hc2)

/-- C3: starting from the freshly initialized store, after any sequence of
store_embedding calls whose NOW() timestamps strictly increase, the
embeddings table holds exactly one row for any stored document_id; that row
carries the content, embedding and metadata of the most recent call for the
id, with updated_at equal to that call's timestamp; and after any earlier
call for the id the row's updated_at is that call's timestamp, strictly
below the timestamp of every later call for the id — each re-insert bumps
updated_at strictly. -/
theorem C3_upsert_unique_latest_bumped :
    ∀ (calls : List VectorStore.StoreCall) (d : String),
      (calls.map (fun c => c.time)).Pairwise (· < ·) →
      (∃ c ∈ calls, c.document_id = d) →
      ((VectorStore.applyStores VectorStore.dbInit ⟨none⟩ calls).rows "embeddings").countP
          (fun r => decide (r.document_id = d)) = 1 ∧
      (∃ c2 r, VectorStore.lastFor d calls = some c2 ∧
        ((VectorStore.applyStores VectorStore.dbInit ⟨none⟩ calls).rows "embeddings").find?
            (fun r => decide (r.document_id = d)) = some r ∧
        r.content = c2.content ∧ r.embedding = c2.embedding ∧ r.metadata = c2.metadata ∧
        r.updated_at = c2.time) ∧
      (∀ (p s : List VectorStore.StoreCall) (c : VectorStore.StoreCall),
        calls = p ++ c :: s → c.document_id = d →
        ∃ r, ((VectorStore.applyStores VectorStore.dbInit ⟨none⟩ (p ++ [c])).rows
              "embeddings").find? (fun r => decide (r.document_id = d)) = some r ∧
          r.updated_at = c.time ∧
          ∀ c2 ∈ s, c2.document_id = d → r.updated_at < c2.time) := by
  intro calls d hpw hex
  have hbase : ∀ d2, (VectorStore.dbInit.rows "embeddings").countP
      (fun r => decide (r.document_id = d2)) ≤ 1 := by
    intro d2
    simp [VectorStore.dbInit]
  refine ⟨?_, ?_, ?_⟩
  · rw [VectorStore.applyStores_rows_embeddings]
    exact VectorStore.countP_applyUpserts calls _ d hbase (Or.inl hex)
  · rcases VectorStore.lastFor_isSome calls d hex with ⟨c2, hlast⟩
    rcases VectorStore.find?_applyUpserts_lastFor calls (VectorStore.dbInit.rows "embeddings")
      d c2 hlast with ⟨r, hfind, _, hrest⟩
    refine ⟨c2, r, hlast, ?_, hrest⟩
    rw [VectorStore.applyStores_rows_embeddings]
    exact hfind
  · intro p s c hsplit hcd
    have hlast : VectorStore.lastFor d (p ++ [c]) = some c := by
      rw [VectorStore.lastFor_append_last, if_pos hcd]
    rcases VectorStore.find?_applyUpserts_lastFor (p ++ [c])
      (VectorStore.dbInit.rows "embeddings") d c hlast with ⟨r, hfind, _, _, _, _, hupd⟩
    refine ⟨r, ?_, hupd, ?_⟩
    · rw [VectorStore.applyStores_rows_embeddings]
      exact hfind
    · intro c2 hc2 _
      rw [hupd]
      exact VectorStore.time_lt_of_split calls p s c hsplit hpw c2 hc2

/-- The C3 scenario at two concrete stores of the same document id with
different content at timestamps 1 and 2: exactly one row remains. -/
theorem C3_witness_two_stores :
    ((VectorStore.applyStores VectorStore.dbInit ⟨none⟩ VectorStore.callsC3).rows
        "embeddings").countP (fun r => decide (r.document_id = "d1")) = 1 :=
  (C3_upsert_unique_latest_bumped VectorStore.callsC3 "d1" (by decide) (by decide)).1
